import Mathlib

/-!
Shallow embedding of the TikD-R downloader core (src/downloader.rs,
src/scraper.rs, src/error.rs) in Lean 4, together with theorems settling
the specification claims about it.

Conventions of the embedding:
* Rust `&str` values that undergo slicing and scanning are modelled as
  `List Char`; the source's byte indices coincide with character indices
  on the ASCII needles the code uses.
* Rust `u64` arithmetic is modelled on `Nat` with explicit `% 2 ^ 64`
  saturation/wrap where the source overflows.
* The `url` crate's `Url::parse`/`Url::join` (external library code) is
  abstracted as a resolver function `List Char → Option (List Char)`:
  `some` models `Ok(resolved_url)`, `none` models a parse/join error.
  Likewise network fetches are abstracted as functions supplied to the
  embedded control flow.
* Fallible Rust code returning `Result<T, Error>` becomes `Except HError T`.
-/

namespace TikDR

/-- Convert a Lean string literal to the `List Char` representation used by
the embedding of Rust `&str` values. -/
def s2l (s : String) : List Char := s.data

/-- Model of Rust `str::trim` (whitespace stripped from both ends). -/
def rustTrim (l : List Char) : List Char :=
  ((l.dropWhile Char.isWhitespace).reverse.dropWhile Char.isWhitespace).reverse

/-- Model of Rust `str::find(needle)` fused with the subsequent slice
`&line[start + needle.len()..]`: the remainder of `l` after the first
occurrence of `needle`, or `none` when `needle` does not occur. -/
def afterFirst (needle : List Char) : List Char → Option (List Char)
  | [] => if needle.isPrefixOf ([] : List Char) then some [] else none
  | c :: t =>
    if needle.isPrefixOf (c :: t) then some ((c :: t).drop needle.length)
    else afterFirst needle t

/-- Model of Rust `str::find(char)`: index of the first occurrence. -/
def findChar (c : Char) : List Char → Option Nat
  | [] => none
  | x :: t => if x = c then some 0 else (findChar c t).map (· + 1)

/-- Embedding of `extract_attribute` (src/downloader.rs:549-565): find the
first occurrence of `ATTRIBUTE=` in the line; if the value starts with a
double quote return the text up to the closing quote, otherwise return the
text up to the first comma, else the first space, else end of line. -/
def extract_attribute (line attr : List Char) : Option (List Char) :=
  match afterFirst (attr ++ ['=']) line with
  | none => none
  | some remainder =>
    if ['"'].isPrefixOf remainder then
      let rest := remainder.drop 1
      match findChar '"' rest with
      | none => none
      | some e => some (rest.take e)
    else
      let e := ((findChar ',' remainder).orElse
        (fun _ => findChar ' ' remainder)).getD remainder.length
      some (remainder.take e)

/-- Model of Rust `char::is_ascii_alphanumeric` (`'0'..='9' | 'A'..='Z' | 'a'..='z'`). -/
def rustIsAsciiAlphanumeric (c : Char) : Bool :=
  decide ('0' ≤ c ∧ c ≤ '9') || decide ('A' ≤ c ∧ c ≤ 'Z') || decide ('a' ≤ c ∧ c ≤ 'z')

/-- Embedding of `sanitize_component` (src/downloader.rs:583-588): keep only
ASCII alphanumerics and `-`, `_`, `.`. -/
def sanitize_component (input : List Char) : List Char :=
  input.filter (fun c => rustIsAsciiAlphanumeric c || c = '-' || c = '_' || c = '.')

/-- Model of Rust `str::parse::<u64>`: optional leading `+`, then one or more
ASCII digits, and the value must fit in a `u64`. -/
def parseU64 (s : List Char) : Option Nat :=
  let digits := match s with
    | '+' :: rest => rest
    | _ => s
  if digits ≠ [] ∧ digits.all Char.isDigit then
    let n := digits.foldl (fun acc c => acc * 10 + (c.toNat - 48)) 0
    if n < 2 ^ 64 then some n else none
  else none

/-! ## Error model (src/error.rs)

`reqwest::Error` is abstracted by the four observations `should_retry` and
`should_try_hls_fallback` make of it: the `is_timeout`/`is_connect`/`is_body`
flags and the optional HTTP status code. -/

/-- Observable shape of a `reqwest::Error` as consumed by the classifiers. -/
structure NetErr where
  timeoutFlag : Bool
  connectFlag : Bool
  bodyFlag : Bool
  status : Option Nat
  deriving DecidableEq, Repr

/-- Embedding of `Error` (src/error.rs:7-26). Payloads irrelevant to the
claims (`io::Error`, `serde_json::Error`) are dropped. -/
inductive HError where
  | InputConflict
  | MissingInput
  | InvalidUrl (s : List Char)
  | EmptyUrlFile (p : List Char)
  | VideoUrlNotFound
  | DownloadSummary (succeeded failed : Nat)
  | Io
  | Network (e : NetErr)
  | Parsing
  | UnsupportedStream (s : List Char)
  deriving DecidableEq, Repr

/-- Embedding of `should_retry` (src/downloader.rs:590-615). -/
def should_retry : HError → Bool
  | .Network inner =>
    if inner.timeoutFlag || inner.connectFlag || inner.bodyFlag then true
    else
      match inner.status with
      | some s => s == 429 || s == 403 || (500 ≤ s && s ≤ 599)
      | none => true
  | .Io => true
  | .Parsing => true
  | .InvalidUrl _ => false
  | .InputConflict => false
  | .MissingInput => false
  | .EmptyUrlFile _ => false
  | .VideoUrlNotFound => false
  | .DownloadSummary _ _ => false
  | .UnsupportedStream _ => false

/-! ## Backoff arithmetic (src/downloader.rs:154-174) -/

/-- Model of `u64::saturating_mul`. -/
def saturatingMulU64 (a b : Nat) : Nat := min (a * b) (2 ^ 64 - 1)

/-- Model of the Rust expression `1u64 << k`. For `k ≥ 64` the shift amount
overflows: release builds mask it modulo 64 (debug builds panic), so the
value is `2 ^ (k % 64)`. -/
def shlOneU64 (k : Nat) : Nat := 2 ^ (k % 64)

/-- The backoff delay computed before retrying (src/downloader.rs:166-169):
`initial_backoff_ms.saturating_mul(1u64 << (attempt.saturating_sub(1)))`.
`Nat` subtraction is already saturating. -/
def backoff_ms (initialBackoffMs attempt : Nat) : Nat :=
  saturatingMulU64 initialBackoffMs (shlOneU64 (attempt - 1))

/-! ## Variant selection (src/downloader.rs:484-547) -/

/-- The `BANDWIDTH` value of a variant line:
`extract_attribute(trimmed, "BANDWIDTH").and_then(parse::<u64>).unwrap_or(0)`. -/
def bandwidthOf (t : List Char) : Nat :=
  ((extract_attribute t (s2l "BANDWIDTH")).bind parseU64).getD 0

def streamInfMarker : List Char := s2l "#EXT-X-STREAM-INF"

/-- The best-so-far update `select_best_variant` applies for each resolved
variant (the `match &mut best` block, src/downloader.rs:522-531): keep the
current best when the candidate's bandwidth is not strictly greater,
otherwise replace it. -/
def bestStep (best : Option (Nat × List Char)) (p : Nat × List Char) :
    Option (Nat × List Char) :=
  match best with
  | none => some p
  | some q => if p.1 ≤ q.1 then some q else some p

/-- Embedding of the scan loop of `select_best_variant`
(src/downloader.rs:484-547). The source's inner "find the next non-empty,
non-comment line" loop, which consumes from the same iterator as the outer
loop, is flattened into the `pending` argument: `pending = some bw` means a
`#EXT-X-STREAM-INF` line with bandwidth `bw` has been seen and its URI line
is still being searched for; every line skipped during that search is
consumed, exactly as in the source. The per-variant best update is
`bestStep`. -/
def select_best_variant_go (resolve : List Char → Option (List Char)) :
    List (List Char) → Option Nat → Option (Nat × List Char) → Option (Nat × List Char)
  | [], _, best => best
  | line :: rest, some bw, best =>
    let t := rustTrim line
    if t ≠ [] ∧ ¬ (['#'].isPrefixOf t) then
      match resolve t with
      | some candidateUrl =>
        select_best_variant_go resolve rest none (bestStep best (bw, candidateUrl))
      | none => select_best_variant_go resolve rest none best
    else select_best_variant_go resolve rest (some bw) best
  | line :: rest, none, best =>
    let t := rustTrim line
    if streamInfMarker.isPrefixOf t then
      select_best_variant_go resolve rest (some (bandwidthOf t)) best
    else select_best_variant_go resolve rest none best

/-- Embedding of `select_best_variant` (src/downloader.rs:484-547), with the
`url` crate's resolution (`resolve_segment_url(base_url, uri)`) abstracted by
`resolve`. Returns the chosen variant's resolved URL. -/
def select_best_variant (resolve : List Char → Option (List Char))
    (lines : List (List Char)) : Option (List Char) :=
  (select_best_variant_go resolve lines none none).map Prod.snd

/-- Specification-side companion of the scan: the ordered list of
`(bandwidth, resolved URL)` pairs of the variants whose URI resolves,
using the same line-pairing discipline as the source scan. -/
def collect_variants_go (resolve : List Char → Option (List Char)) :
    List (List Char) → Option Nat → List (Nat × List Char)
  | [], _ => []
  | line :: rest, some bw =>
    let t := rustTrim line
    if t ≠ [] ∧ ¬ (['#'].isPrefixOf t) then
      match resolve t with
      | some candidateUrl => (bw, candidateUrl) :: collect_variants_go resolve rest none
      | none => collect_variants_go resolve rest none
    else collect_variants_go resolve rest (some bw)
  | line :: rest, none =>
    let t := rustTrim line
    if streamInfMarker.isPrefixOf t then collect_variants_go resolve rest (some (bandwidthOf t))
    else collect_variants_go resolve rest none

/-- The variants of a master playlist whose URI resolves, in document order. -/
def collectVariants (resolve : List Char → Option (List Char))
    (lines : List (List Char)) : List (Nat × List Char) :=
  collect_variants_go resolve lines none

/-- Follows the spec's words (§4.2): among the listed variants, select the
one with the strictly greatest bandwidth; ties keep the earliest-seen one. -/
def argmaxEarliest : List (Nat × List Char) → Option (Nat × List Char)
  | [] => none
  | p :: rest =>
    match argmaxEarliest rest with
    | none => some p
    | some q => if p.1 < q.1 then some q else some p

/-- `select_best_variant(...).ok_or(Error::VideoUrlNotFound)` at its call
site (src/downloader.rs:315-316). -/
def variantOrNotFound (chosen : Option (List Char)) : Except HError (List Char) :=
  match chosen with
  | some u => .ok u
  | none => .error .VideoUrlNotFound

/-! ## Media-playlist persistence (src/downloader.rs:338-414) -/

/-- Outcome of `persist_media_playlist` together with the bytes that were
written to the output file before the function returned. -/
inductive PersistResult where
  | ok (fileBytes : List Nat)
  | fail (e : HError) (fileBytes : List Nat)
  deriving DecidableEq, Repr

def keyMarker : List Char := s2l "#EXT-X-KEY"
def mapMarker : List Char := s2l "#EXT-X-MAP"

/-- Embedding of `persist_media_playlist` (src/downloader.rs:338-414). The
output file is modelled as the list of bytes written so far; `write_segment`
is abstracted as `fetch`, returning the bytes it wrote plus an optional
error (a failure may occur after part of a segment body was written).
`lineNum` is the 0-based index from `enumerate()`. -/
def persist_go (resolve : List Char → Option (List Char))
    (fetch : List Char → List Nat × Option HError) :
    List (List Char) → Nat → List Nat → Bool → PersistResult
  | [], _, acc, hadSegment =>
    if !hadSegment then .fail .VideoUrlNotFound acc else .ok acc
  | line :: rest, lineNum, acc, hadSegment =>
    let t := rustTrim line
    if t = [] then persist_go resolve fetch rest (lineNum + 1) acc hadSegment
    else if keyMarker.isPrefixOf t then
      let method := (extract_attribute t (s2l "METHOD")).getD (s2l "NONE")
      if method ≠ s2l "NONE" then
        .fail (.UnsupportedStream
          (s2l "HLS encryption method " ++ method ++ s2l " is not supported")) acc
      else persist_go resolve fetch rest (lineNum + 1) acc hadSegment
    else if mapMarker.isPrefixOf t then
      match extract_attribute t (s2l "URI") with
      | some uri =>
        match resolve uri with
        | none => .fail (.InvalidUrl (s2l "init segment: " ++ uri)) acc
        | some initUrl =>
          match fetch initUrl with
          | (bytes, some e) => .fail e (acc ++ bytes)
          | (bytes, none) => persist_go resolve fetch rest (lineNum + 1) (acc ++ bytes) hadSegment
      | none => persist_go resolve fetch rest (lineNum + 1) acc hadSegment
    else if ['#'].isPrefixOf t then persist_go resolve fetch rest (lineNum + 1) acc hadSegment
    else
      match resolve t with
      | none =>
        .fail (.InvalidUrl
          (s2l "segment at line " ++ s2l (toString (lineNum + 1)) ++ s2l ": " ++ t)) acc
      | some segUrl =>
        match fetch segUrl with
        | (bytes, some e) => .fail e (acc ++ bytes)
        | (bytes, none) => persist_go resolve fetch rest (lineNum + 1) (acc ++ bytes) true

/-- `persist_media_playlist` on a playlist given as its list of lines:
fresh output file, no segment seen yet. -/
def persist_media_playlist (resolve : List Char → Option (List Char))
    (fetch : List Char → List Nat × Option HError)
    (lines : List (List Char)) : PersistResult :=
  persist_go resolve fetch lines 0 [] false

/-! ## Descriptor construction (src/scraper.rs) -/

/-- Embedding of `VideoDescriptor` (src/scraper.rs:13-18). -/
structure VideoDescriptor where
  video_id : String
  download_url : Option String
  play_url : Option String
  author : String
  deriving DecidableEq, Repr

/-- Minimal JSON value model for the `serde_json::Value` consumed by
`build_descriptor_from_value`. -/
inductive JValue where
  | jnull
  | jbool (b : Bool)
  | jnum (n : Int)
  | jstr (s : String)
  | jarr (elems : List JValue)
  | jobj (fields : List (String × JValue))

/-- `Value::get(key)` on an object (serde object keys are unique, so
first-match lookup is faithful). -/
def JValue.get (v : JValue) (key : String) : Option JValue :=
  match v with
  | .jobj fields => (fields.find? (fun kv => kv.1 == key)).map Prod.snd
  | _ => none

/-- `Value::as_str`. -/
def JValue.asStr : JValue → Option String
  | .jstr s => some s
  | _ => none

/-- Embedding of `build_descriptor_from_value` (src/scraper.rs:132-171).
The `url`-crate-based guessers `guess_video_id(share_url)` and
`guess_author_id(share_url)` are abstracted by `guessId` / `guessAuthor`. -/
def build_descriptor_from_value (guessId guessAuthor : Option String)
    (value : JValue) : Option VideoDescriptor :=
  match ((value.get "id").bind JValue.asStr).orElse (fun _ => guessId) with
  | none => none
  | some video_id =>
    match value.get "video" with
    | none => none
    | some video =>
      let download_url := ((video.get "downloadAddr").bind JValue.asStr).filter
        (fun s => !s.isEmpty)
      let play_url := ((video.get "playAddr").bind JValue.asStr).filter
        (fun s => !s.isEmpty)
      if download_url = none ∧ play_url = none then none
      else
        let author := ((((value.get "author").bind (fun a => a.get "uniqueId")).bind
          JValue.asStr).orElse (fun _ => guessAuthor)).getD "unknown"
        some ⟨video_id, download_url, play_url, author⟩

/-- Embedding of `VideoStruct` (src/scraper.rs:267-273). -/
structure VideoStruct where
  download_addr : Option String
  play_addr : Option String
  deriving DecidableEq, Repr

/-- Embedding of `AuthorStruct` (src/scraper.rs:275-279). -/
structure AuthorStruct where
  unique_id : Option String
  deriving DecidableEq, Repr

/-- Embedding of `ItemStruct` (src/scraper.rs:257-265). -/
structure ItemStruct where
  id : Option String
  video : Option VideoStruct
  author : Option AuthorStruct
  deriving DecidableEq, Repr

/-- Embedding of `build_descriptor_from_item` (src/scraper.rs:173-196). -/
def build_descriptor_from_item (guessAuthor : Option String)
    (item : ItemStruct) : Option VideoDescriptor :=
  match item.video with
  | none => none
  | some video =>
    let download_url := video.download_addr.filter (fun s => !s.isEmpty)
    let play_url := video.play_addr.filter (fun s => !s.isEmpty)
    if download_url = none ∧ play_url = none then none
    else
      let author := ((item.author.bind AuthorStruct.unique_id).orElse
        (fun _ => guessAuthor)).getD "unknown"
      match item.id with
      | none => none
      | some video_id => some ⟨video_id, download_url, play_url, author⟩

/-- `parse_share_page(html, url).ok_or(Error::VideoUrlNotFound)` in
`extract_video_descriptor` (src/scraper.rs:45). -/
def descriptorOrNotFound (parsed : Option VideoDescriptor) :
    Except HError VideoDescriptor :=
  match parsed with
  | some d => .ok d
  | none => .error .VideoUrlNotFound

/-! ## Retry loop and fan-out (src/downloader.rs:124-174) -/

/-- Embedding of the retry loop of `download_one` (src/downloader.rs:154-174).
`outcomes k` is the result of the `k`-th (0-based) call of `download_once`;
`budget` is `max_retries` minus the number of failures seen so far. Returns
how many `download_once` calls were made and the loop's final result. -/
def download_one_go (outcomes : Nat → Except HError String) :
    Nat → Nat → Nat × Except HError String
  | 0, k =>
    match outcomes k with
    | .ok path => (1, .ok path)
    | .error e => (1, .error e)
  | b + 1, k =>
    match outcomes k with
    | .ok path => (1, .ok path)
    | .error e =>
      if should_retry e then
        let r := download_one_go outcomes b (k + 1)
        (r.1 + 1, r.2)
      else (1, .error e)

/-- `download_one` with `max_retries = maxRetries`: the loop starts with
`attempt = 0` and full retry budget. -/
def download_one (maxRetries : Nat) (outcomes : Nat → Except HError String) :
    Nat × Except HError String :=
  download_one_go outcomes maxRetries 0

deriving instance DecidableEq for Except

/-- Embedding of `DownloadReport` (src/downloader.rs:52-56); the output
`PathBuf` is modelled as a string. -/
structure DownloadReport where
  url : String
  result : Except HError String
  deriving DecidableEq, Repr

/-- The indexed reports produced by the per-URL tasks of `download_all`
(src/downloader.rs:131-141): task `idx` yields `(idx, report)`, the report
pairing the input URL with its pipeline outcome. -/
def indexedReports (outcome : Nat → String → Except HError String)
    (urls : List String) : List (Nat × DownloadReport) :=
  urls.enum.map (fun p => (p.1, ⟨p.2, outcome p.1 p.2⟩))

/-- Embedding of the collect-sort-strip phase of `download_all`
(src/downloader.rs:144-150): `collected` is the arrival-ordered list pushed
by `buffer_unordered`; it is sorted by index and the indices dropped.
(`sort_by_key` is modelled by a merge sort on the keys; the keys are
pairwise distinct, so any sort yields the same list.) -/
def download_all_sorted (collected : List (Nat × DownloadReport)) : List DownloadReport :=
  (collected.mergeSort (fun a b => a.1 ≤ b.1)).map Prod.snd

/-! ## Specification-side companion definitions -/

/-- The attribute-extraction contract in the spec's words, amended only in
the unquoted case: the value after `NAME=` is the text between the double
quotes when it starts with one; otherwise it is terminated by the first
comma, else (when there is no comma) by the first space, else by the end of
the line. -/
def extract_attribute_spec (line attr : List Char) : Option (List Char) :=
  match afterFirst (attr ++ ['=']) line with
  | none => none
  | some remainder =>
    if ['"'].isPrefixOf remainder then
      let rest := remainder.drop 1
      if '"' ∈ rest then some (rest.takeWhile (fun c => c ≠ '"')) else none
    else
      if ',' ∈ remainder then some (remainder.takeWhile (fun c => c ≠ ','))
      else if ' ' ∈ remainder then some (remainder.takeWhile (fun c => c ≠ ' '))
      else some remainder

/-- The claim's original unquoted-value rule, word for word: the value is
terminated by the first comma, space, or end-of-line — whichever comes
first. -/
def extract_attribute_claim (line attr : List Char) : Option (List Char) :=
  match afterFirst (attr ++ ['=']) line with
  | none => none
  | some remainder =>
    if ['"'].isPrefixOf remainder then
      let rest := remainder.drop 1
      if '"' ∈ rest then some (rest.takeWhile (fun c => c ≠ '"')) else none
    else some (remainder.takeWhile (fun c => ¬(c = ',' ∨ c = ' ')))

/-- The character set the spec allows in sanitizer output: ASCII
alphanumerics and `-`, `_`, `.`. -/
def specAllowedChar (c : Char) : Bool :=
  decide (('0' ≤ c ∧ c ≤ '9') ∨ ('A' ≤ c ∧ c ≤ 'Z') ∨ ('a' ≤ c ∧ c ≤ 'z')
    ∨ c = '-' ∨ c = '_' ∨ c = '.')

/-- The claim's retryability classification, word for word: a `Network`
error is retryable exactly when it is a timeout, connection failure,
body-read failure, or carries status 429, 403 or 5xx; `Io` and `Parsing`
are retryable; everything else is fatal. -/
def claimRetryable : HError → Bool
  | .Network inner =>
    inner.timeoutFlag || inner.connectFlag || inner.bodyFlag ||
      (match inner.status with
       | some s => s == 429 || s == 403 || (500 ≤ s && s ≤ 599)
       | none => false)
  | .Io => true
  | .Parsing => true
  | _ => false

/-- The retryability classification amended to match the code: a `Network`
error that carries no HTTP status at all (and is not a timeout, connection
or body failure — e.g. a redirect-policy or request-construction error) is
also retryable. -/
def amendedRetryable : HError → Bool
  | .Network inner =>
    inner.timeoutFlag || inner.connectFlag || inner.bodyFlag ||
      (match inner.status with
       | some s => s == 429 || s == 403 || (500 ≤ s && s ≤ 599)
       | none => true)
  | .Io => true
  | .Parsing => true
  | _ => false

/-- The backoff the spec and the claim prescribe:
`initial_backoff_ms × 2^(attempt−1)`, saturating at `u64::MAX`. -/
def claimBackoff (initialBackoffMs attempt : Nat) : Nat :=
  min (initialBackoffMs * 2 ^ (attempt - 1)) (2 ^ 64 - 1)

/-! ## Helper lemmas -/

theorem findChar_eq_none_iff {c : Char} {l : List Char} :
    findChar c l = none ↔ c ∉ l := by
  induction l with
  | nil => simp [findChar]
  | cons x t ih =>
    by_cases hx : x = c
    · subst hx; simp [findChar]
    · simp only [findChar, if_neg hx, Option.map_eq_none', List.mem_cons, ih]
      constructor
      · rintro hc (h1 | h2)
        · exact hx h1.symm
        · exact hc h2
      · intro h h2
        exact h (Or.inr h2)

theorem findChar_take {c : Char} {l : List Char} {e : Nat}
    (h : findChar c l = some e) : l.take e = l.takeWhile (fun x => x ≠ c) := by
  induction l generalizing e with
  | nil => simp [findChar] at h
  | cons x t ih =>
    by_cases hx : x = c
    · subst hx
      simp [findChar] at h
      subst h
      simp [List.takeWhile]
    · simp only [findChar, if_neg hx] at h
      cases h' : findChar c t with
      | none => simp [h'] at h
      | some e' =>
        simp [h'] at h
        subst h
        simp [List.take, List.takeWhile, hx, ih h']

theorem findChar_mem {c : Char} {l : List Char} {e : Nat}
    (h : findChar c l = some e) : c ∈ l := by
  by_contra hn
  rw [← findChar_eq_none_iff] at hn
  rw [hn] at h
  cases h

/-- `extract_attribute` satisfies the amended extraction contract. -/
theorem extract_attribute_eq_spec (line attr : List Char) :
    extract_attribute line attr = extract_attribute_spec line attr := by
  unfold extract_attribute extract_attribute_spec
  cases hA : afterFirst (attr ++ ['=']) line with
  | none => rfl
  | some remainder =>
    by_cases hq : (['"'] : List Char).isPrefixOf remainder
    · simp only [hq, if_true]
      cases hF : findChar '"' (remainder.drop 1) with
      | none =>
        rw [List.drop_one] at hF
        have hm : ('"' : Char) ∉ remainder.tail := findChar_eq_none_iff.mp hF
        simp [hm]
      | some e =>
        rw [List.drop_one] at hF
        simp [findChar_mem hF, findChar_take hF]
    · simp only [hq, if_false]
      cases hc : findChar ',' remainder with
      | some i =>
        simp [findChar_mem hc, Option.orElse, findChar_take hc]
      | none =>
        have hcm : (',' : Char) ∉ remainder := findChar_eq_none_iff.mp hc
        cases hs : findChar ' ' remainder with
        | some j =>
          simp [hc, findChar_mem hs, hcm, Option.orElse, findChar_take hs]
        | none =>
          have hsm : (' ' : Char) ∉ remainder := findChar_eq_none_iff.mp hs
          simp [hc, hcm, hsm, Option.orElse, List.take_length]

/-- **C5** (amended): for every line and attribute name, extraction returns
the text between the double quotes when the value after `NAME=` starts with
one, and otherwise the unquoted value terminated by the first comma, else
(when no comma follows) by the first space, else by the end of line; in
particular the two quoted/unquoted examples from the spec hold. -/
theorem extract_attribute_contract :
    (∀ line attr, extract_attribute line attr = extract_attribute_spec line attr)
    ∧ extract_attribute (s2l "#EXT-X-MAP:URI=\"init.mp4\"") (s2l "URI") = some (s2l "init.mp4")
    ∧ extract_attribute (s2l "#EXT-X-KEY:METHOD=AES-128,URI=\"enc.key\"") (s2l "METHOD")
        = some (s2l "AES-128") :=
  ⟨extract_attribute_eq_spec, by decide, by decide⟩

/-- **C5** counterexample: on `#EXT-X-KEY:A=b c,d` the claimed rule
("terminated by the first comma, space, or end-of-line") yields `b`, but the
code scans for a comma first and yields `b c`. -/
theorem extract_attribute_claim_false :
    extract_attribute (s2l "#EXT-X-KEY:A=b c,d") (s2l "A") = some (s2l "b c")
    ∧ extract_attribute_claim (s2l "#EXT-X-KEY:A=b c,d") (s2l "A") = some (s2l "b")
    ∧ ¬ extract_attribute (s2l "#EXT-X-KEY:A=b c,d") (s2l "A")
        = extract_attribute_claim (s2l "#EXT-X-KEY:A=b c,d") (s2l "A") := by
  refine ⟨by decide, by decide, by decide⟩

/-- A master-playlist line in which `AVERAGE-BANDWIDTH` precedes
`BANDWIDTH`; its true `BANDWIDTH` value is 1200000. -/
def avgBwLine : List Char :=
  s2l "#EXT-X-STREAM-INF:AVERAGE-BANDWIDTH=800000,BANDWIDTH=1200000"

/-- **C10**: `extract_attribute` anchors on the first occurrence of the
substring `NAME=`, even inside a longer attribute name: on a line where
`AVERAGE-BANDWIDTH=800000` precedes `BANDWIDTH=1200000`, asking for
`BANDWIDTH` returns the `AVERAGE-BANDWIDTH` value `800000`, and variant
selection consequently ranks variants by the wrong number. -/
theorem extract_attribute_first_occurrence :
    extract_attribute avgBwLine (s2l "BANDWIDTH") = some (s2l "800000")
    ∧ extract_attribute avgBwLine (s2l "AVERAGE-BANDWIDTH") = some (s2l "800000")
    ∧ ¬ extract_attribute avgBwLine (s2l "BANDWIDTH") = some (s2l "1200000")
    ∧ bandwidthOf avgBwLine = 800000
    ∧ select_best_variant (fun u => some u)
        [s2l "#EXT-X-STREAM-INF:AVERAGE-BANDWIDTH=2000000,BANDWIDTH=100",
         s2l "low.m3u8",
         s2l "#EXT-X-STREAM-INF:BANDWIDTH=500",
         s2l "high.m3u8"]
      = some (s2l "low.m3u8") := by
  refine ⟨by decide, by decide, by decide, by decide, by decide⟩

theorem sanitize_allowed_eq (c : Char) :
    (rustIsAsciiAlphanumeric c || decide (c = '-') || decide (c = '_')
      || decide (c = '.')) = specAllowedChar c := by
  simp [specAllowedChar, rustIsAsciiAlphanumeric, Bool.decide_or, Bool.or_assoc]

/-- **C8**: the sanitizer's output contains only ASCII alphanumerics, `-`,
`_`, `.`; it is a subsequence of the input preserving order; and it equals
the input with every character outside that set removed. -/
theorem sanitize_component_correct :
    ∀ input : List Char,
      (sanitize_component input).all specAllowedChar = true
      ∧ (sanitize_component input).Sublist input
      ∧ sanitize_component input = input.filter specAllowedChar := by
  intro input
  refine ⟨?_, List.filter_sublist _, List.filter_congr (fun c _ => sanitize_allowed_eq c)⟩
  rw [List.all_eq_true]
  intro c hc
  rw [sanitize_component, List.mem_filter] at hc
  exact sanitize_allowed_eq c ▸ hc.2

/-- **C1** counterexample: a `Network` error that is not a timeout,
connection or body failure and carries no HTTP status (e.g. reqwest's
redirect-limit error under the 10-hop policy) is retryable in the code, yet
the claim's "exactly when" enumeration classifies it as fatal. -/
theorem should_retry_claim_false :
    should_retry (.Network ⟨false, false, false, none⟩) = true
    ∧ claimRetryable (.Network ⟨false, false, false, none⟩) = false := by
  exact ⟨rfl, rfl⟩

/-- **C1** (amended): the retry classifier treats a `Network` error as
retryable exactly when it is a timeout, connection failure, body-read
failure, carries no HTTP status, or carries status 429, 403 or 5xx (other
carried statuses, in particular the remaining 4xx, are fatal); `Io` and
`Parsing` are retryable; `InvalidUrl`, `VideoUrlNotFound`,
`UnsupportedStream`, `EmptyUrlFile`, `InputConflict` and `MissingInput` are
fatal. -/
theorem should_retry_classification :
    ∀ e, should_retry e = amendedRetryable e := by
  intro e
  cases e <;> try rfl
  next inner =>
    obtain ⟨t, cn, b, st⟩ := inner
    cases t <;> cases cn <;> cases b <;> cases st <;> rfl

/-- Below the 64-step shift horizon the code's backoff agrees with the
specified saturating formula. -/
theorem backoff_agrees_below_64 (initial k : Nat) (h : k - 1 < 64) :
    backoff_ms initial k = claimBackoff initial k := by
  unfold backoff_ms claimBackoff saturatingMulU64 shlOneU64
  rw [Nat.mod_eq_of_lt h]

/-- **C2** (code bug): at attempt 65 the shift amount of `1u64 << (attempt-1)`
reaches 64 and overflows — release builds mask it to `1u64 << 0`, so with the
default 500 ms initial backoff the slept delay collapses from `u64::MAX` ms
(attempt 64) back to 500 ms, instead of saturating as the spec requires
(debug builds panic on the same expression). -/
theorem backoff_shift_overflow :
    backoff_ms 500 64 = 2 ^ 64 - 1
    ∧ backoff_ms 500 65 = 500
    ∧ backoff_ms 500 65 < backoff_ms 500 64
    ∧ claimBackoff 500 65 = 2 ^ 64 - 1
    ∧ ¬ backoff_ms 500 65 = claimBackoff 500 65 := by
  refine ⟨by decide, by decide, by decide, by decide, by decide⟩

theorem download_one_go_spec (outcomes : Nat → Except HError String) :
    ∀ budget k,
      1 ≤ (download_one_go outcomes budget k).1
      ∧ (download_one_go outcomes budget k).1 ≤ budget + 1
      ∧ (download_one_go outcomes budget k).2
          = outcomes (k + ((download_one_go outcomes budget k).1 - 1))
      ∧ (∀ j, j < (download_one_go outcomes budget k).1 - 1 →
          ∃ e, outcomes (k + j) = .error e ∧ should_retry e = true)
      ∧ (∀ e, (download_one_go outcomes budget k).2 = .error e →
          should_retry e = false ∨ (download_one_go outcomes budget k).1 = budget + 1) := by
  intro budget
  induction budget with
  | zero =>
    intro k
    cases h : outcomes k with
    | ok p =>
      simp only [download_one_go, h]
      exact ⟨by omega, by omega, by simpa using h.symm, fun j hj => by omega,
        fun e he => by simp at he⟩
    | error e0 =>
      simp only [download_one_go, h]
      exact ⟨by omega, by omega, by simpa using h.symm, fun j hj => by omega,
        fun e _ => Or.inr (by simp)⟩
  | succ b ih =>
    intro k
    cases h : outcomes k with
    | ok p =>
      simp only [download_one_go, h]
      exact ⟨by omega, by omega, by simpa using h.symm, fun j hj => by omega,
        fun e he => by simp at he⟩
    | error e0 =>
      by_cases hr : should_retry e0 = true
      · obtain ⟨h1, h2, h3, h4, h5⟩ := ih (k + 1)
        simp only [download_one_go, h, hr, if_true]
        refine ⟨by omega, by omega, ?_, ?_, ?_⟩
        · rw [h3]
          congr 1
          omega
        · intro j hj
          cases j with
          | zero => exact ⟨e0, by simpa using h, hr⟩
          | succ j' =>
            have harith : k + (j' + 1) = k + 1 + j' := by omega
            rw [harith]
            exact h4 j' (by omega)
        · intro e he
          rcases h5 e he with hf | hb
          · exact Or.inl hf
          · exact Or.inr (by omega)
      · have hrf : should_retry e0 = false := by simpa using hr
        simp only [download_one_go, h, hrf, Bool.false_eq_true, if_false]
        refine ⟨by omega, by omega, by simpa using h.symm, fun j hj => by omega, ?_⟩
        intro e he
        have he' : e0 = e := by simpa using he
        exact Or.inl (he' ▸ hrf)

/-- **C9**: with `max_retries = R` the loop invokes `download_once` at least
once and at most `R + 1` times; its final result is exactly the outcome of
its last call (the first success, or the final attempt's error); every call
before the last failed with a retryable error (so a fatal error ends the
loop immediately, and a success is the first success); and a final error is
returned only when it is fatal or the retry budget is exhausted. -/
theorem download_one_retry_contract :
    ∀ (maxRetries : Nat) (outcomes : Nat → Except HError String),
      1 ≤ (download_one maxRetries outcomes).1
      ∧ (download_one maxRetries outcomes).1 ≤ maxRetries + 1
      ∧ (download_one maxRetries outcomes).2
          = outcomes ((download_one maxRetries outcomes).1 - 1)
      ∧ (∀ j, j < (download_one maxRetries outcomes).1 - 1 →
          ∃ e, outcomes j = .error e ∧ should_retry e = true)
      ∧ (∀ e, (download_one maxRetries outcomes).2 = .error e →
          should_retry e = false ∨ (download_one maxRetries outcomes).1 = maxRetries + 1) := by
  intro maxRetries outcomes
  have h := download_one_go_spec outcomes maxRetries 0
  simpa [download_one] using h

/-- A sample outcome trace: the first attempt times out, the second
succeeds. -/
def demoOutcomes : Nat → Except HError String := fun k =>
  if k = 0 then .error (.Network ⟨true, false, false, none⟩) else .ok "user/video.mp4"

/-- **C9** witness: on the sample trace with `max_retries = 3` the loop
makes 2 calls (within the bound 4), returns the first success, and the one
earlier call failed retryably. -/
theorem download_one_retry_contract_witness :
    download_one 3 demoOutcomes = (2, .ok "user/video.mp4")
    ∧ (∃ e, demoOutcomes 0 = .error e ∧ should_retry e = true) := by
  refine ⟨by decide, ?_⟩
  have h := (download_one_retry_contract 3 demoOutcomes).2.2.2.1 0 (by decide)
  simpa using h

/-- The download URL the "universal data" strategy extracts from an item
`Value` (`downloadAddr` of its `video` object, kept only when non-empty). -/
def valueDownloadUrl (v : JValue) : Option String :=
  ((v.get "video").bind (fun video => (video.get "downloadAddr").bind JValue.asStr)).filter
    (fun s => !s.isEmpty)

/-- The play URL the "universal data" strategy extracts from an item
`Value` (`playAddr` of its `video` object, kept only when non-empty). -/
def valuePlayUrl (v : JValue) : Option String :=
  ((v.get "video").bind (fun video => (video.get "playAddr").bind JValue.asStr)).filter
    (fun s => !s.isEmpty)

/-- The download URL extracted from a deserialized `ItemStruct`. -/
def itemDownloadUrl (item : ItemStruct) : Option String :=
  (item.video.bind VideoStruct.download_addr).filter (fun s => !s.isEmpty)

/-- The play URL extracted from a deserialized `ItemStruct`. -/
def itemPlayUrl (item : ItemStruct) : Option String :=
  (item.video.bind VideoStruct.play_addr).filter (fun s => !s.isEmpty)

theorem option_filter_nonempty {o : Option String} {u : String}
    (h : o.filter (fun s => !s.isEmpty) = some u) : u ≠ "" := by
  cases o with
  | none => simp [Option.filter] at h
  | some a =>
    by_cases he : a.isEmpty = true
    · simp [Option.filter, he] at h
    · simp [Option.filter, he] at h
      intro hu
      apply he
      rw [h, hu]
      rfl

theorem build_value_invariant (gi ga : Option String) (v : JValue) (d : VideoDescriptor)
    (h : build_descriptor_from_value gi ga v = some d) :
    (∃ u, d.download_url = some u ∧ u ≠ "") ∨ (∃ u, d.play_url = some u ∧ u ≠ "") := by
  unfold build_descriptor_from_value at h
  cases hid : ((v.get "id").bind JValue.asStr).orElse (fun _ => gi) with
  | none => simp only [hid] at h; exact Option.noConfusion h
  | some vid =>
    simp only [hid] at h
    cases hv : v.get "video" with
    | none => simp only [hv] at h; exact Option.noConfusion h
    | some video =>
      simp only [hv] at h
      by_cases hc :
          ((video.get "downloadAddr").bind JValue.asStr).filter (fun s => !s.isEmpty) = none
          ∧ ((video.get "playAddr").bind JValue.asStr).filter (fun s => !s.isEmpty) = none
      · rw [if_pos hc] at h; cases h
      · rw [if_neg hc] at h
        have hd := Option.some.inj h
        rcases not_and_or.mp hc with hdl | hpl
        · rcases Option.ne_none_iff_exists'.mp hdl with ⟨u, hu⟩
          exact Or.inl ⟨u, by rw [← hd]; exact hu, option_filter_nonempty hu⟩
        · rcases Option.ne_none_iff_exists'.mp hpl with ⟨u, hu⟩
          exact Or.inr ⟨u, by rw [← hd]; exact hu, option_filter_nonempty hu⟩

theorem build_item_invariant (ga : Option String) (item : ItemStruct) (d : VideoDescriptor)
    (h : build_descriptor_from_item ga item = some d) :
    (∃ u, d.download_url = some u ∧ u ≠ "") ∨ (∃ u, d.play_url = some u ∧ u ≠ "") := by
  unfold build_descriptor_from_item at h
  cases hv : item.video with
  | none => simp only [hv] at h; exact Option.noConfusion h
  | some video =>
    simp only [hv] at h
    by_cases hc : video.download_addr.filter (fun s => !s.isEmpty) = none
        ∧ video.play_addr.filter (fun s => !s.isEmpty) = none
    · rw [if_pos hc] at h; cases h
    · rw [if_neg hc] at h
      cases hid : item.id with
      | none => simp only [hid] at h; exact Option.noConfusion h
      | some vid =>
        simp only [hid] at h
        have hd := Option.some.inj h
        rcases not_and_or.mp hc with hdl | hpl
        · rcases Option.ne_none_iff_exists'.mp hdl with ⟨u, hu⟩
          exact Or.inl ⟨u, by rw [← hd]; exact hu, option_filter_nonempty hu⟩
        · rcases Option.ne_none_iff_exists'.mp hpl with ⟨u, hu⟩
          exact Or.inr ⟨u, by rw [← hd]; exact hu, option_filter_nonempty hu⟩

theorem build_value_none (gi ga : Option String) (v : JValue)
    (hdl : valueDownloadUrl v = none) (hpl : valuePlayUrl v = none) :
    build_descriptor_from_value gi ga v = none := by
  unfold build_descriptor_from_value
  cases hid : ((v.get "id").bind JValue.asStr).orElse (fun _ => gi) with
  | none => rfl
  | some vid =>
    cases hv : v.get "video" with
    | none => rfl
    | some video =>
      simp only [valueDownloadUrl, hv, Option.some_bind] at hdl
      simp only [valuePlayUrl, hv, Option.some_bind] at hpl
      simp only [hdl, hpl, and_self, if_true]

theorem build_item_none (ga : Option String) (item : ItemStruct)
    (hdl : itemDownloadUrl item = none) (hpl : itemPlayUrl item = none) :
    build_descriptor_from_item ga item = none := by
  unfold build_descriptor_from_item
  cases hv : item.video with
  | none => rfl
  | some video =>
    simp only [itemDownloadUrl, hv, Option.some_bind] at hdl
    simp only [itemPlayUrl, hv, Option.some_bind] at hpl
    simp only [hdl, hpl, and_self, if_true]

/-- **C7**: every descriptor either strategy builds carries at least one
present, non-empty media URL; when the parsed structure yields neither a
non-empty download URL nor a non-empty play URL the strategy yields no
descriptor; and a fully failed extraction surfaces `VideoUrlNotFound`. -/
theorem descriptor_media_url_invariant :
    (∀ gi ga v d, build_descriptor_from_value gi ga v = some d →
      (∃ u, d.download_url = some u ∧ u ≠ "") ∨ (∃ u, d.play_url = some u ∧ u ≠ ""))
    ∧ (∀ ga item d, build_descriptor_from_item ga item = some d →
      (∃ u, d.download_url = some u ∧ u ≠ "") ∨ (∃ u, d.play_url = some u ∧ u ≠ ""))
    ∧ (∀ gi ga v, valueDownloadUrl v = none → valuePlayUrl v = none →
      build_descriptor_from_value gi ga v = none)
    ∧ (∀ ga item, itemDownloadUrl item = none → itemPlayUrl item = none →
      build_descriptor_from_item ga item = none)
    ∧ descriptorOrNotFound none = .error .VideoUrlNotFound :=
  ⟨build_value_invariant, build_item_invariant, build_value_none, build_item_none, rfl⟩

/-- A concrete "universal data" item: non-empty `downloadAddr`, empty
`playAddr`. -/
def demoItemJson : JValue := .jobj
  [("id", .jstr "123"),
   ("video", .jobj [("downloadAddr", .jstr "https://v.example.com/a.mp4"),
                    ("playAddr", .jstr "")]),
   ("author", .jobj [("uniqueId", .jstr "alice")])]

/-- **C7** witness: the concrete item builds a descriptor with a non-empty
download URL, and an item with only empty media URLs builds none. -/
theorem descriptor_media_url_invariant_witness :
    ((∃ u, (VideoDescriptor.mk "123" (some "https://v.example.com/a.mp4") none
        "alice").download_url = some u ∧ u ≠ "")
      ∨ (∃ u, (VideoDescriptor.mk "123" (some "https://v.example.com/a.mp4") none
        "alice").play_url = some u ∧ u ≠ ""))
    ∧ build_descriptor_from_item none ⟨some "1", some ⟨some "", some ""⟩, none⟩ = none := by
  constructor
  · exact descriptor_media_url_invariant.1 none none demoItemJson _ (by decide)
  · exact descriptor_media_url_invariant.2.2.2.1 none ⟨some "1", some ⟨some "", some ""⟩, none⟩
      (by decide) (by decide)

/-- A playlist line that `persist_media_playlist` passes over without
writing any byte and without failing: blank after trimming, or a
comment/directive line that is neither an encryption-key line with a
non-`NONE` method nor a map line carrying a `URI` attribute. -/
def persistSkippable (line : List Char) : Prop :=
  rustTrim line = []
  ∨ ((['#'] : List Char).isPrefixOf (rustTrim line) = true
     ∧ (keyMarker.isPrefixOf (rustTrim line) = true →
         (extract_attribute (rustTrim line) (s2l "METHOD")).getD (s2l "NONE") = s2l "NONE")
     ∧ (mapMarker.isPrefixOf (rustTrim line) = true →
         extract_attribute (rustTrim line) (s2l "URI") = none))

instance (line : List Char) : Decidable (persistSkippable line) := by
  unfold persistSkippable
  infer_instance

theorem persist_go_skip (resolve : List Char → Option (List Char))
    (fetch : List Char → List Nat × Option HError) :
    ∀ (pre suffix : List (List Char)) (lineNum : Nat) (acc : List Nat) (had : Bool),
      (∀ l ∈ pre, persistSkippable l) →
      persist_go resolve fetch (pre ++ suffix) lineNum acc had
        = persist_go resolve fetch suffix (lineNum + pre.length) acc had := by
  intro pre
  induction pre with
  | nil =>
    intro suffix lineNum acc had _
    simp
  | cons l pre ih =>
    intro suffix lineNum acc had hskip
    have hl := hskip l (List.mem_cons_self l pre)
    have hrest : ∀ x ∈ pre, persistSkippable x := fun x hx =>
      hskip x (List.mem_cons_of_mem l hx)
    have hlen : lineNum + 1 + pre.length = lineNum + (l :: pre).length := by
      simp
      omega
    rcases hl with hempty | ⟨hash, hkey, hmap⟩
    · rw [List.cons_append]
      rw [show persist_go resolve fetch (l :: (pre ++ suffix)) lineNum acc had
          = persist_go resolve fetch (pre ++ suffix) (lineNum + 1) acc had by
        simp only [persist_go, hempty, if_pos]]
      rw [ih suffix (lineNum + 1) acc had hrest, hlen]
    · have hne : rustTrim l ≠ [] := by
        intro hnil
        rw [hnil] at hash
        exact absurd hash (by decide)
      by_cases hk : keyMarker.isPrefixOf (rustTrim l) = true
      · have hm := hkey hk
        rw [List.cons_append]
        rw [show persist_go resolve fetch (l :: (pre ++ suffix)) lineNum acc had
            = persist_go resolve fetch (pre ++ suffix) (lineNum + 1) acc had by
          simp only [persist_go, hne, hk, hm, if_neg, if_pos]
          simp [hne, hm]]
        rw [ih suffix (lineNum + 1) acc had hrest, hlen]
      · by_cases hmp : mapMarker.isPrefixOf (rustTrim l) = true
        · have hu := hmap hmp
          rw [List.cons_append]
          rw [show persist_go resolve fetch (l :: (pre ++ suffix)) lineNum acc had
              = persist_go resolve fetch (pre ++ suffix) (lineNum + 1) acc had by
            simp only [persist_go]
            simp [hne, hk, hmp, hu]]
          rw [ih suffix (lineNum + 1) acc had hrest, hlen]
        · rw [List.cons_append]
          rw [show persist_go resolve fetch (l :: (pre ++ suffix)) lineNum acc had
              = persist_go resolve fetch (pre ++ suffix) (lineNum + 1) acc had by
            simp only [persist_go]
            simp [hne, hk, hmp, hash]]
          rw [ih suffix (lineNum + 1) acc had hrest, hlen]

/-- **C4** (amended): in a media playlist whose first encryption-key line
with a non-`NONE` method is preceded only by blank lines and by
comments/directives that neither fetch bytes nor fail (no segment-URI line,
no map line carrying a URI, no earlier non-`NONE` key line), persistence
fails with `UnsupportedStream` carrying the method name, with no byte
written to the output file. -/
theorem persist_key_rejects_encryption :
    ∀ (resolve : List Char → Option (List Char))
      (fetch : List Char → List Nat × Option HError)
      (pre : List (List Char)) (keyline : List Char) (rest : List (List Char)),
      (∀ l ∈ pre, persistSkippable l) →
      keyMarker.isPrefixOf (rustTrim keyline) = true →
      (extract_attribute (rustTrim keyline) (s2l "METHOD")).getD (s2l "NONE") ≠ s2l "NONE" →
      persist_media_playlist resolve fetch (pre ++ keyline :: rest)
        = .fail (.UnsupportedStream
            (s2l "HLS encryption method "
              ++ (extract_attribute (rustTrim keyline) (s2l "METHOD")).getD (s2l "NONE")
              ++ s2l " is not supported")) [] := by
  intro resolve fetch pre keyline rest hpre hkey hmethod
  unfold persist_media_playlist
  rw [persist_go_skip resolve fetch pre (keyline :: rest) 0 [] false hpre]
  have hne : rustTrim keyline ≠ [] := by
    intro hnil
    rw [hnil] at hkey
    exact absurd hkey (by decide)
  simp only [persist_go]
  simp [hne, hkey, hmethod]

/-- **C4** counterexample: when a segment-URI line precedes the encryption
key, the code downloads and writes that segment's bytes before reaching the
key line, so persistence still fails with `UnsupportedStream` but bytes
were already written to the output file — the claim's "no segment bytes
have been written" part is false for such a playlist. -/
theorem persist_key_counterexample :
    persist_media_playlist (fun u => some u) (fun _ => ([9, 9], none))
        [s2l "seg0.ts", s2l "#EXT-X-KEY:METHOD=AES-128,URI=\"enc.key\""]
      = .fail (.UnsupportedStream (s2l "HLS encryption method AES-128 is not supported")) [9, 9]
    ∧ ([9, 9] : List Nat) ≠ [] := by
  refine ⟨by decide, by decide⟩

/-- **C4** witness: on a well-formed encrypted playlist (header directives,
then the key line, then segments) persistence fails with
`UnsupportedStream` and the output file stays empty. -/
theorem persist_key_rejects_encryption_witness :
    persist_media_playlist (fun u => some u) (fun _ => ([9, 9], none))
        ([s2l "#EXTM3U", s2l "#EXT-X-TARGETDURATION:4", s2l ""]
          ++ s2l "#EXT-X-KEY:METHOD=AES-128,URI=\"enc.key\"" :: [s2l "seg0.ts"])
      = .fail (.UnsupportedStream (s2l "HLS encryption method AES-128 is not supported")) [] := by
  have h := persist_key_rejects_encryption (fun u => some u) (fun _ => ([9, 9], none))
    [s2l "#EXTM3U", s2l "#EXT-X-TARGETDURATION:4", s2l ""]
    (s2l "#EXT-X-KEY:METHOD=AES-128,URI=\"enc.key\"") [s2l "seg0.ts"]
    (by decide) (by decide) (by decide)
  simpa using h

/-- The earliest maximum of `l`, except that an accumulator `q` seen before
all of `l` wins ties against it. -/
def mergeBest (q : Nat × List Char) (l : List (Nat × List Char)) : Nat × List Char :=
  match argmaxEarliest l with
  | none => q
  | some r => if q.1 < r.1 then r else q

theorem select_go_eq_fold (resolve : List Char → Option (List Char)) :
    ∀ (lines : List (List Char)) (pending : Option Nat) (best : Option (Nat × List Char)),
      select_best_variant_go resolve lines pending best
        = List.foldl bestStep best (collect_variants_go resolve lines pending) := by
  intro lines
  induction lines with
  | nil => intro pending best; cases pending <;> rfl
  | cons line rest ih =>
    intro pending best
    cases pending with
    | none =>
      show (if streamInfMarker.isPrefixOf (rustTrim line) = true then _ else _)
        = List.foldl bestStep best
            (if streamInfMarker.isPrefixOf (rustTrim line) = true then _ else _)
      by_cases hs : streamInfMarker.isPrefixOf (rustTrim line) = true
      · rw [if_pos hs, if_pos hs]
        exact ih _ _
      · rw [if_neg hs, if_neg hs]
        exact ih _ _
    | some bw =>
      show (if rustTrim line ≠ [] ∧ ¬ ((['#'] : List Char).isPrefixOf (rustTrim line) = true)
            then _ else _)
        = List.foldl bestStep best
            (if rustTrim line ≠ [] ∧ ¬ ((['#'] : List Char).isPrefixOf (rustTrim line) = true)
            then _ else _)
      by_cases hc : rustTrim line ≠ [] ∧ ¬ ((['#'] : List Char).isPrefixOf (rustTrim line) = true)
      · rw [if_pos hc, if_pos hc]
        cases hr : resolve (rustTrim line) with
        | some url =>
          rw [List.foldl_cons]
          exact ih _ _
        | none => exact ih _ _
      · rw [if_neg hc, if_neg hc]
        exact ih _ _

theorem mergeBest_cons (q p : Nat × List Char) (rest : List (Nat × List Char)) :
    mergeBest q (p :: rest) = mergeBest (if p.1 ≤ q.1 then q else p) rest := by
  unfold mergeBest
  cases hr : argmaxEarliest rest with
  | none =>
    simp only [argmaxEarliest, hr]
    by_cases hpq : p.1 ≤ q.1
    · simp [hpq, show ¬ q.1 < p.1 by omega]
    · simp [hpq, show q.1 < p.1 by omega]
  | some r =>
    simp only [argmaxEarliest, hr]
    by_cases hpq : p.1 ≤ q.1
    · by_cases hpr : p.1 < r.1
      · simp [hpq, hpr]
      · simp [hpq, hpr, show ¬ q.1 < r.1 by omega, show ¬ q.1 < p.1 by omega]
    · by_cases hpr : p.1 < r.1
      · simp [hpq, hpr, show q.1 < r.1 by omega]
      · simp [hpq, hpr, show q.1 < p.1 by omega]

theorem foldl_bestStep_some :
    ∀ (l : List (Nat × List Char)) (q : Nat × List Char),
      List.foldl bestStep (some q) l = some (mergeBest q l) := by
  intro l
  induction l with
  | nil => intro q; rfl
  | cons p rest ih =>
    intro q
    rw [List.foldl_cons,
      show bestStep (some q) p = some (if p.1 ≤ q.1 then q else p) from
        (apply_ite some (p.1 ≤ q.1) q p).symm,
      ih, mergeBest_cons]

theorem foldl_bestStep_none (l : List (Nat × List Char)) :
    List.foldl bestStep none l = argmaxEarliest l := by
  cases l with
  | nil => rfl
  | cons p rest =>
    rw [List.foldl_cons, show bestStep none p = some p from rfl, foldl_bestStep_some]
    unfold mergeBest
    simp only [argmaxEarliest]
    cases hr : argmaxEarliest rest with
    | none => rfl
    | some r => by_cases h : p.1 < r.1 <;> simp [h]

theorem argmaxEarliest_eq_none_iff {l : List (Nat × List Char)} :
    argmaxEarliest l = none ↔ l = [] := by
  cases l with
  | nil => simp [argmaxEarliest]
  | cons p rest =>
    simp only [argmaxEarliest]
    constructor
    · intro h
      exfalso
      cases hm : argmaxEarliest rest with
      | none => rw [hm] at h; simp at h
      | some r =>
        rw [hm] at h
        by_cases hlt : p.1 < r.1 <;> simp [hlt] at h
    · intro h
      cases h

theorem argmaxEarliest_spec :
    ∀ (l : List (Nat × List Char)) (p : Nat × List Char),
      argmaxEarliest l = some p →
      (∀ q ∈ l, q.1 ≤ p.1)
      ∧ ∃ pre post, l = pre ++ p :: post ∧ ∀ q ∈ pre, q.1 < p.1 := by
  intro l
  induction l with
  | nil => intro p h; cases h
  | cons a rest ih =>
    intro p h
    cases hr : argmaxEarliest rest with
    | none =>
      simp only [argmaxEarliest, hr] at h
      have hrest : rest = [] := argmaxEarliest_eq_none_iff.mp hr
      obtain rfl := Option.some.inj h
      subst hrest
      refine ⟨?_, [], [], by simp, by simp⟩
      intro q hq
      rcases List.mem_singleton.mp hq with rfl
      exact le_refl _
    | some r =>
      simp only [argmaxEarliest, hr] at h
      obtain ⟨hmax, pre', post', hsplit, hpre'⟩ := ih r hr
      by_cases ha : a.1 < r.1
      · rw [if_pos ha] at h
        obtain rfl := Option.some.inj h
        refine ⟨?_, a :: pre', post', by rw [hsplit, List.cons_append], ?_⟩
        · intro q hq
          rcases List.mem_cons.mp hq with rfl | hq2
          · omega
          · exact hmax q hq2
        · intro q hq
          rcases List.mem_cons.mp hq with rfl | hq2
          · exact ha
          · exact hpre' q hq2
      · rw [if_neg ha] at h
        obtain rfl := Option.some.inj h
        refine ⟨?_, [], rest, rfl, by simp⟩
        intro q hq
        rcases List.mem_cons.mp hq with rfl | hq2
        · exact le_refl _
        · have := hmax q hq2
          omega

/-- The spec's two-variant master playlist (bandwidths 500000 and 1200000). -/
def demoMaster : List (List Char) :=
  [s2l "#EXTM3U",
   s2l "#EXT-X-STREAM-INF:BANDWIDTH=500000,RESOLUTION=640x360",
   s2l "https://cdn.example.com/v500000.m3u8",
   s2l "#EXT-X-STREAM-INF:BANDWIDTH=1200000,RESOLUTION=1280x720",
   s2l "https://cdn.example.com/v1200000.m3u8"]

/-- A master playlist with two equal-bandwidth variants. -/
def demoTie : List (List Char) :=
  [s2l "#EXT-X-STREAM-INF:BANDWIDTH=800000",
   s2l "first.m3u8",
   s2l "#EXT-X-STREAM-INF:BANDWIDTH=800000",
   s2l "second.m3u8"]

/-- **C3**: `select_best_variant` returns the resolved URL of the
earliest-seen variant with the strictly greatest extracted bandwidth among
the variants whose URI resolves (ties keep the earliest); it returns `none`
— surfaced as `VideoUrlNotFound` — exactly when no variant resolves; and on
the spec's 500000/1200000 example it picks the 1200000 entry, while equal
bandwidths keep the first-seen variant. -/
theorem select_best_variant_correct :
    (∀ resolve lines, select_best_variant resolve lines
        = (argmaxEarliest (collectVariants resolve lines)).map Prod.snd)
    ∧ (∀ resolve lines, select_best_variant resolve lines = none
        ↔ collectVariants resolve lines = [])
    ∧ (∀ resolve lines p, argmaxEarliest (collectVariants resolve lines) = some p →
        (∀ q ∈ collectVariants resolve lines, q.1 ≤ p.1)
        ∧ ∃ pre post, collectVariants resolve lines = pre ++ p :: post
            ∧ ∀ q ∈ pre, q.1 < p.1)
    ∧ (∀ resolve lines, variantOrNotFound (select_best_variant resolve lines)
        = .error .VideoUrlNotFound ↔ collectVariants resolve lines = [])
    ∧ select_best_variant (fun u => some u) demoMaster
        = some (s2l "https://cdn.example.com/v1200000.m3u8")
    ∧ select_best_variant (fun u => some u) demoTie = some (s2l "first.m3u8") := by
  have hmain : ∀ (resolve : List Char → Option (List Char)) (lines : List (List Char)),
      select_best_variant resolve lines
        = (argmaxEarliest (collectVariants resolve lines)).map Prod.snd := by
    intro resolve lines
    unfold select_best_variant collectVariants
    rw [select_go_eq_fold, foldl_bestStep_none]
  have hnone : ∀ (resolve : List Char → Option (List Char)) (lines : List (List Char)),
      select_best_variant resolve lines = none ↔ collectVariants resolve lines = [] := by
    intro resolve lines
    rw [hmain, Option.map_eq_none', argmaxEarliest_eq_none_iff]
  refine ⟨hmain, hnone, fun resolve lines p h => argmaxEarliest_spec _ p h, ?_, by decide,
    by decide⟩
  intro resolve lines
  rw [← hnone resolve lines]
  cases h : select_best_variant resolve lines <;> simp [variantOrNotFound]

/-- **C3** witness: on the 500000/1200000 playlist every resolved variant's
bandwidth is at most 1200000 and the chosen entry is the earliest maximum. -/
theorem select_best_variant_correct_witness :
    (∀ q ∈ collectVariants (fun u => some u) demoMaster,
      q.1 ≤ (1200000, s2l "https://cdn.example.com/v1200000.m3u8").1)
    ∧ ∃ pre post, collectVariants (fun u => some u) demoMaster
        = pre ++ (1200000, s2l "https://cdn.example.com/v1200000.m3u8") :: post
        ∧ ∀ q ∈ pre, q.1 < (1200000, s2l "https://cdn.example.com/v1200000.m3u8").1 :=
  select_best_variant_correct.2.2.1 (fun u => some u) demoMaster
    (1200000, s2l "https://cdn.example.com/v1200000.m3u8") (by decide)

instance : IsAntisymm (Nat × DownloadReport) (fun a b => a.1 < b.1) :=
  ⟨fun _ _ h1 h2 => absurd (Nat.lt_trans h1 h2) (Nat.lt_irrefl _)⟩

theorem indexedReports_pairwise (outcome : Nat → String → Except HError String)
    (urls : List String) :
    List.Pairwise (fun a b => a.1 < b.1) (indexedReports outcome urls) := by
  unfold indexedReports
  rw [List.pairwise_map]
  have h : List.Pairwise (· < ·) (urls.enum.map Prod.fst) := by
    rw [List.enum_map_fst]
    exact List.pairwise_lt_range _
  rw [List.pairwise_map] at h
  exact h

theorem mergeSort_indexed_eq (outcome : Nat → String → Except HError String)
    (urls : List String) (collected : List (Nat × DownloadReport))
    (hp : collected.Perm (indexedReports outcome urls)) :
    collected.mergeSort (fun a b => a.1 ≤ b.1) = indexedReports outcome urls := by
  have htarget := indexedReports_pairwise outcome urls
  have hperm : (collected.mergeSort (fun a b => a.1 ≤ b.1)).Perm
      (indexedReports outcome urls) :=
    (List.mergeSort_perm collected _).trans hp
  have hsorted : List.Pairwise
      (fun a b : Nat × DownloadReport => (decide (a.1 ≤ b.1)) = true)
      (collected.mergeSort (fun a b => a.1 ≤ b.1)) :=
    List.sorted_mergeSort
      (by intro a b c h1 h2; simp at h1 h2 ⊢; omega)
      (by intro a b; simp; omega) collected
  have hnodup : (indexedReports outcome urls).Pairwise (fun a b => a.1 ≠ b.1) :=
    htarget.imp (fun h => Nat.ne_of_lt h)
  have hnodup2 : (collected.mergeSort (fun a b => a.1 ≤ b.1)).Pairwise
      (fun a b => a.1 ≠ b.1) :=
    (hperm.pairwise_iff (fun h => Ne.symm h)).mpr hnodup
  have hstrict : (collected.mergeSort (fun a b => a.1 ≤ b.1)).Pairwise
      (fun a b => a.1 < b.1) :=
    (hsorted.and hnodup2).imp (fun h => by
      obtain ⟨h1, h2⟩ := h
      simp at h1
      omega)
  exact List.eq_of_perm_of_sorted hperm hstrict htarget

/-- **C6**: whatever order the per-URL tasks complete in (any permutation of
the indexed reports), `download_all` returns exactly one report per input
URL, in input order — the i-th report carries the i-th URL — and when every
pipeline fails all returned reports carry errors. -/
theorem download_all_order :
    ∀ (urls : List String) (outcome : Nat → String → Except HError String)
      (collected : List (Nat × DownloadReport)),
      collected.Perm (indexedReports outcome urls) →
      download_all_sorted collected
          = urls.enum.map (fun p => ⟨p.2, outcome p.1 p.2⟩)
      ∧ (download_all_sorted collected).length = urls.length
      ∧ (∀ i (h1 : i < (download_all_sorted collected).length) (h2 : i < urls.length),
          ((download_all_sorted collected)[i]).url = urls[i])
      ∧ ((∀ i u, (outcome i u).isOk = false) →
          ∀ r ∈ download_all_sorted collected, r.result.isOk = false) := by
  intro urls outcome collected hp
  have heq : download_all_sorted collected
      = urls.enum.map (fun p => ⟨p.2, outcome p.1 p.2⟩) := by
    unfold download_all_sorted
    rw [mergeSort_indexed_eq outcome urls collected hp]
    unfold indexedReports
    rw [List.map_map]
    rfl
  refine ⟨heq, ?_, ?_, ?_⟩
  · rw [heq, List.length_map, List.enum_length]
  · intro i h1 h2
    simp [heq, List.getElem_map, List.getElem_enum]
  · intro hall r hr
    rw [heq] at hr
    rcases List.mem_map.mp hr with ⟨p, _, rfl⟩
    exact hall p.1 p.2

/-- Two input URLs whose pipelines both fail. -/
def demoUrls : List String := ["https://www.tiktok.com/a", "https://www.tiktok.com/b"]

/-- Every pipeline fails with `VideoUrlNotFound`. -/
def demoOutcome : Nat → String → Except HError String := fun _ _ => .error .VideoUrlNotFound

/-- The completions arrive in reverse order. -/
def demoArrival : List (Nat × DownloadReport) :=
  [(1, ⟨"https://www.tiktok.com/b", .error .VideoUrlNotFound⟩),
   (0, ⟨"https://www.tiktok.com/a", .error .VideoUrlNotFound⟩)]

/-- **C6** witness: with reversed completion order the reports come back in
input order, one per URL, all carrying errors. -/
theorem download_all_order_witness :
    download_all_sorted demoArrival
      = [⟨"https://www.tiktok.com/a", .error .VideoUrlNotFound⟩,
         ⟨"https://www.tiktok.com/b", .error .VideoUrlNotFound⟩]
    ∧ ∀ r ∈ download_all_sorted demoArrival, r.result.isOk = false := by
  have h := download_all_order demoUrls demoOutcome demoArrival (by decide)
  exact ⟨h.1.trans (by decide), h.2.2.2 (fun i u => rfl)⟩

end TikDR

